import Mathlib

/-!
Verification development for the aienergy repository core:
the metrics computation engine (src/lib/energy-metrics.ts) and the
model-catalog refresh route (src/unnamed/part_001, a Next.js GET handler).

Embedding conventions:
- JavaScript numbers are modelled as exact rationals extended with the
  non-finite values NaN, Infinity and -Infinity (type JNum).  Finite
  double arithmetic is modelled exactly over the rationals; the only
  non-finite value reachable in the covered code paths is NaN from a
  zero-by-zero division, which the JNum operations reproduce.
- Strings are modelled as Lean strings; the scanning code works on the
  list of character code points (List Nat).  String.toLowerCase is
  modelled on code points for the ASCII range, which covers every
  comparison the route performs.
- The GET handler is modelled as a pure function of the module-level
  cache state, the current time in milliseconds, and the outcome of the
  (single) upstream fetch; it returns the JSON payload together with
  the updated cache state.
-/

/-- A JavaScript number: an exact rational, or one of the non-finite values. -/
inductive JNum where
  | finite (q : ℚ)
  | posInf
  | negInf
  | nan
deriving DecidableEq, Repr

/-- Number.isFinite. -/
def JNum.isFinite : JNum → Bool
  | JNum.finite _ => true
  | _ => false

/-- The rational value of a finite JNum (junk 0 on non-finite values). -/
def JNum.toQ : JNum → ℚ
  | JNum.finite q => q
  | _ => 0

/-- JavaScript multiplication on numbers (sign of infinities via the rational signs). -/
def jmul : JNum → JNum → JNum
  | JNum.nan, _ => JNum.nan
  | _, JNum.nan => JNum.nan
  | JNum.finite a, JNum.finite b => JNum.finite (a * b)
  | JNum.finite a, JNum.posInf =>
      if a = 0 then JNum.nan else if 0 < a then JNum.posInf else JNum.negInf
  | JNum.finite a, JNum.negInf =>
      if a = 0 then JNum.nan else if 0 < a then JNum.negInf else JNum.posInf
  | JNum.posInf, JNum.finite b =>
      if b = 0 then JNum.nan else if 0 < b then JNum.posInf else JNum.negInf
  | JNum.negInf, JNum.finite b =>
      if b = 0 then JNum.nan else if 0 < b then JNum.negInf else JNum.posInf
  | JNum.posInf, JNum.posInf => JNum.posInf
  | JNum.posInf, JNum.negInf => JNum.negInf
  | JNum.negInf, JNum.posInf => JNum.negInf
  | JNum.negInf, JNum.negInf => JNum.posInf

/-- JavaScript division on numbers.  Division of a nonzero finite value by
zero yields a signed infinity, and 0 / 0 yields NaN (negative zero is not
modelled; it is never reachable in the covered code). -/
def jdiv : JNum → JNum → JNum
  | JNum.nan, _ => JNum.nan
  | _, JNum.nan => JNum.nan
  | JNum.finite a, JNum.finite b =>
      if b = 0 then
        if a = 0 then JNum.nan else if 0 < a then JNum.posInf else JNum.negInf
      else JNum.finite (a / b)
  | JNum.finite _, JNum.posInf => JNum.finite 0
  | JNum.finite _, JNum.negInf => JNum.finite 0
  | JNum.posInf, JNum.finite b => if 0 ≤ b then JNum.posInf else JNum.negInf
  | JNum.negInf, JNum.finite b => if 0 ≤ b then JNum.negInf else JNum.posInf
  | _, _ => JNum.nan

/-- ModelData from src/lib/energy-metrics.ts (same shape as the ModelData
interface of the catalog route). -/
structure ModelData where
  name : String
  parameters_in_billions : JNum
  emissions_per_token_kWh : JNum
deriving DecidableEq, Repr

/-- RegionData from src/lib/energy-metrics.ts. -/
structure RegionData where
  name : String
  carbonIntensity : ℚ
deriving DecidableEq, Repr

/-- MetricsResult from src/lib/energy-metrics.ts. -/
structure MetricsResult where
  totalCost : JNum
  costPer1M : JNum
  totalEnergyKwh : JNum
  carbonEmissionsKg : JNum
  totalFlops : JNum
  energyPerToken : JNum
deriving DecidableEq, Repr

/-- The Precision union type of src/lib/energy-metrics.ts. -/
inductive Precision where
  | FP32
  | FP16
  | FP8
deriving DecidableEq, Repr

/-- The zeroResult constant of calculateMetrics. -/
def zeroResult : MetricsResult :=
  { totalCost := JNum.finite 0
    costPer1M := JNum.finite 0
    totalEnergyKwh := JNum.finite 0
    carbonEmissionsKg := JNum.finite 0
    totalFlops := JNum.finite 0
    energyPerToken := JNum.finite 0 }

/-- baseEfficiency of calculateMetrics: 6.59e11 FLOPs per Joule. -/
def baseEfficiency : ℚ := 659000000000

/-- precisionMultipliers lookup of calculateMetrics. -/
def precisionMultiplier : Precision → ℚ
  | Precision.FP32 => 1
  | Precision.FP16 => 2
  | Precision.FP8 => 4

/-- calculateMetrics of src/lib/energy-metrics.ts.  The scenario inputs
tokenCount, pue, electricityPrice and region.carbonIntensity come from UI
controls and are modelled as finite numbers (rationals); the model argument
is the nullable catalog entry.  The divisions by tokenCount are performed
with the JavaScript division jdiv, which is where NaN can arise. -/
def calculateMetrics (model : Option ModelData) (tokenCount : ℚ)
    (precision : Precision) (pue electricityPrice : ℚ)
    (region : RegionData) : MetricsResult :=
  match model with
  | none => zeroResult
  | some m =>
    match m.parameters_in_billions with
    | JNum.finite p =>
      if p ≤ 0 then zeroResult
      else
        let totalFlops : ℚ := 2 * p * 1000000000 * tokenCount
        let efficiency : ℚ := baseEfficiency * precisionMultiplier precision
        let energyJoules : ℚ := totalFlops / efficiency
        let energyKwhBase : ℚ := energyJoules / 3600000
        let totalEnergyKwh : ℚ := energyKwhBase * pue
        let totalCost : ℚ := totalEnergyKwh * electricityPrice
        let energyPer1M : JNum :=
          jmul (jdiv (JNum.finite totalEnergyKwh) (JNum.finite tokenCount))
            (JNum.finite 1000000)
        let costPer1M : JNum := jmul energyPer1M (JNum.finite electricityPrice)
        let carbonEmissionsKg : ℚ := totalEnergyKwh * region.carbonIntensity
        let energyPerToken : JNum :=
          jdiv (JNum.finite totalEnergyKwh) (JNum.finite tokenCount)
        { totalCost := JNum.finite totalCost
          costPer1M := costPer1M
          totalEnergyKwh := JNum.finite totalEnergyKwh
          carbonEmissionsKg := JNum.finite carbonEmissionsKg
          totalFlops := JNum.finite totalFlops
          energyPerToken := energyPerToken }
    | _ => zeroResult

example :
    (calculateMetrics (some ⟨"m", JNum.finite 70, JNum.finite 0⟩) 1000000
      Precision.FP16 (6/5) (19/125) ⟨"US", 69/200⟩).totalFlops
      = JNum.finite 140000000000000000 := by
  norm_num [calculateMetrics, baseEfficiency, precisionMultiplier, jmul, jdiv]

example :
    (calculateMetrics (some ⟨"m", JNum.finite 70, JNum.finite 0⟩) 0
      Precision.FP16 (6/5) (19/125) ⟨"US", 69/200⟩).energyPerToken
      = JNum.nan := by
  norm_num [calculateMetrics, baseEfficiency, precisionMultiplier, jmul, jdiv]

/-! ## Character-level predicates of the route regexes, on code points -/

/-- JavaScript regex digit class (0-9). -/
def isDigitN (n : ℕ) : Bool := decide (48 ≤ n ∧ n ≤ 57)

/-- JavaScript regex whitespace class, restricted to the ASCII range
(space, tab, line feed, vertical tab, form feed, carriage return). -/
def isSpaceN (n : ℕ) : Bool :=
  decide (n = 32 ∨ n = 9 ∨ n = 10 ∨ n = 11 ∨ n = 12 ∨ n = 13)

/-- JavaScript regex word-character class [A-Za-z0-9_], used by word
boundaries. -/
def isWordN (n : ℕ) : Bool :=
  isDigitN n || decide (97 ≤ n ∧ n ≤ 122) || decide (65 ≤ n ∧ n ≤ 90) ||
    decide (n = 95)

/-- The unit letter of a parameter-count token. -/
inductive UnitK where
  | bil
  | tril
deriving DecidableEq, Repr

/-- Classification of the captured unit letter [bBtT]. -/
def unitOf (n : ℕ) : Option UnitK :=
  if n = 98 ∨ n = 66 then some UnitK.bil
  else if n = 116 ∨ n = 84 then some UnitK.tril
  else none

/-- The trillions-to-billions conversion applied to a match value. -/
def unitMul : UnitK → ℚ
  | UnitK.bil => 1
  | UnitK.tril => 1000

/-- Value of a run of decimal digit code points. -/
def digitsVal (l : List ℕ) : ℕ := l.foldl (fun acc d => 10 * acc + (d - 48)) 0

/-- Number.parseFloat on a captured numeral: integer digits ds, optional
fraction digits fs. -/
def numValue (ds fs : List ℕ) : ℚ :=
  (digitsVal ds : ℚ) + (digitsVal fs : ℚ) / 10 ^ fs.length

/-- True when the list does not begin with a word character: the trailing
word-boundary test of the regex. -/
def noWordHead : List ℕ → Bool
  | [] => true
  | c :: _ => !isWordN c


/-- The optional fraction part (?:\.\d+)? of the numeral: splits the input
after the integer digits into (fraction digits, remainder).  The fraction
is taken only when a dot is directly followed by at least one digit. -/
def fracSplit (r1 : List ℕ) : List ℕ × List ℕ :=
  match r1 with
  | [] => ([], [])
  | c :: r =>
    if c = 46 then
      if (r.takeWhile isDigitN).isEmpty then ([], c :: r)
      else (r.takeWhile isDigitN, r.dropWhile isDigitN)
    else ([], c :: r)

theorem fracSplit_suffix (r1 : List ℕ) : (fracSplit r1).2.IsSuffix r1 := by
  unfold fracSplit
  match r1 with
  | [] => exact List.suffix_rfl
  | c :: r =>
    by_cases hc : c = 46
    · by_cases hf : (r.takeWhile isDigitN).isEmpty
      · simp [hc, hf]
      · simp only [hc, hf, if_true, if_false, Bool.false_eq_true, if_pos rfl]
        exact (List.dropWhile_suffix isDigitN).trans (List.suffix_cons 46 r)
    · simp [hc]

/-- One attempt of the parameter regex at the current position (the word
boundary before the first digit is checked by the caller): greedy digits,
optional fraction, optional whitespace, then a unit letter followed by a
word boundary.  Returns the converted match value and the remainder after
the match. -/
def tryMatch (l : List ℕ) : Option (ℚ × List ℕ) :=
  if (l.takeWhile isDigitN).isEmpty then none
  else
    match (fracSplit (l.dropWhile isDigitN)).2.dropWhile isSpaceN with
    | [] => none
    | u :: rest =>
      match unitOf u with
      | none => none
      | some k =>
        if noWordHead rest then
          some (numValue (l.takeWhile isDigitN)
            (fracSplit (l.dropWhile isDigitN)).1 * unitMul k, rest)
        else none

theorem tryMatch_rest {l rest : List ℕ} {v : ℚ}
    (h : tryMatch l = some (v, rest)) :
    rest.IsSuffix l ∧ rest.length < l.length := by
  unfold tryMatch at h
  by_cases hd : (l.takeWhile isDigitN).isEmpty
  · simp [hd] at h
  · simp only [hd, if_false, Bool.false_eq_true] at h
    have hsplit : l.takeWhile isDigitN ++ l.dropWhile isDigitN = l :=
      List.takeWhile_append_dropWhile isDigitN l
    have hdslen : 1 ≤ (l.takeWhile isDigitN).length := by
      cases hne : l.takeWhile isDigitN with
      | nil => rw [hne] at hd; simp at hd
      | cons a as => simp [hne]
    have hr1len : (l.dropWhile isDigitN).length < l.length := by
      have hlen := congrArg List.length hsplit
      simp only [List.length_append] at hlen
      omega
    have hfr2 : (fracSplit (l.dropWhile isDigitN)).2.IsSuffix (l.dropWhile isDigitN) :=
      fracSplit_suffix _
    have hr3 : ((fracSplit (l.dropWhile isDigitN)).2.dropWhile isSpaceN).IsSuffix
        (fracSplit (l.dropWhile isDigitN)).2 := List.dropWhile_suffix isSpaceN
    match hm : (fracSplit (l.dropWhile isDigitN)).2.dropWhile isSpaceN with
    | [] => rw [hm] at h; simp at h
    | u :: rest0 =>
      rw [hm] at h
      simp only [] at h
      match hu : unitOf u with
      | none => rw [hu] at h; simp at h
      | some k =>
        rw [hu] at h
        simp only [] at h
        by_cases hw : noWordHead rest0
        · simp only [hw, if_true, Option.some.injEq, Prod.mk.injEq, if_pos] at h
          have hrest : rest = rest0 := h.2.symm
          subst hrest
          rw [hm] at hr3
          have hsuf : rest.IsSuffix l :=
            ((List.suffix_cons u rest).trans ((hr3.trans hfr2).trans
              (List.dropWhile_suffix isDigitN)))
          refine ⟨hsuf, ?_⟩
          have h1 : (u :: rest).length ≤ (fracSplit (l.dropWhile isDigitN)).2.length :=
            hr3.length_le
          have h2 : (fracSplit (l.dropWhile isDigitN)).2.length ≤
              (l.dropWhile isDigitN).length := hfr2.length_le
          simp only [List.length_cons] at h1
          omega
        · simp [hw] at h

/-- The left-to-right global scan of the parameter regex, as matchAll
performs it: bnd records whether a word boundary precedes the current
position, and skip counts the positions still covered by the previous
match (the lastIndex mechanism), at which no new attempt starts. -/
def scanAux : ℕ → Bool → List ℕ → List ℚ
  | _, _, [] => []
  | skip + 1, _, c :: cs => scanAux skip (!isWordN c) cs
  | 0, bnd, c :: cs =>
    match (if bnd then tryMatch (c :: cs) else none) with
    | some (v, rest) => v :: scanAux ((c :: cs).length - rest.length - 1) false cs
    | none => scanAux 0 (!isWordN c) cs

/-- All positions at which the parameter regex can match, overlapping
matches included: the reference enumeration used to compare the global
scan against the specification wording. -/
def specAux (bnd : Bool) : List ℕ → List ℚ
  | [] => []
  | c :: cs =>
    match (if bnd then tryMatch (c :: cs) else none) with
    | some (v, _) => v :: specAux (!isWordN c) cs
    | none => specAux (!isWordN c) cs

/-- A variant of tryMatch with no whitespace allowed between the numeral
and the unit letter: the reading of the claim wording, where the numeral
is immediately followed by the unit letter. -/
def tryMatchImm (l : List ℕ) : Option (ℚ × List ℕ) :=
  let ds := l.takeWhile isDigitN
  if ds.isEmpty then none
  else
    let fr := fracSplit (l.dropWhile isDigitN)
    match fr.2 with
    | [] => none
    | u :: rest =>
      match unitOf u with
      | none => none
      | some k =>
        if noWordHead rest then some (numValue ds fr.1 * unitMul k, rest)
        else none

/-- All positions at which the immediate (no-whitespace) variant matches. -/
def specImmAux (bnd : Bool) : List ℕ → List ℚ
  | [] => []
  | c :: cs =>
    match (if bnd then tryMatchImm (c :: cs) else none) with
    | some (v, _) => v :: specImmAux (!isWordN c) cs
    | none => specImmAux (!isWordN c) cs

/-- Code points of a string. -/
def strNats (s : String) : List ℕ := s.data.map Char.toNat

/-- The values of the non-overlapping left-to-right matches of the
parameter regex on a model name, trillions already converted. -/
def scanVals (s : String) : List ℚ := scanAux 0 true (strNats s)

/-- The values of every position-wise match (overlaps included) of the
whitespace-allowing parameter pattern. -/
def allWsMatches (s : String) : List ℚ := specAux true (strNats s)

/-- The values of every position-wise match of the immediate
(no-whitespace) parameter pattern: the claim wording. -/
def allImmMatches (s : String) : List ℚ := specImmAux true (strNats s)

/-- Math.max over a list of candidates (junk 0 on the empty list, which the
route never queries). -/
def listMax : List ℚ → ℚ
  | [] => 0
  | v :: vs => vs.foldl max v

/-- The candidate parameter count the route computes from a model name:
the maximum over the matchAll matches, or none when there is no match. -/
def extractCandidate (s : String) : Option ℚ :=
  match scanVals s with
  | [] => none
  | v :: vs => some (listMax (v :: vs))

/-! ## The catalog refresh route (src/unnamed/part_001) -/

/-- String.toLowerCase on one code point (ASCII range). -/
def lowerNat (n : ℕ) : ℕ := if 65 ≤ n ∧ n ≤ 90 then n + 32 else n

/-- The lowercased code points of a name: the key used by the case
insensitive name comparisons of the route. -/
def nameKey (s : String) : List ℕ := (strNats s).map lowerNat

/-- Case-insensitive test that l begins with the (lowercase) pattern w. -/
def startsWithCI : List ℕ → List ℕ → Bool
  | [], _ => true
  | _ :: _, [] => false
  | a :: as, b :: bs => decide (lowerNat b = a) && startsWithCI as bs

/-- A case-insensitive word-bounded substring test: the form of the
blacklist regexes as applied to a name. -/
def hasWordCI (w : List ℕ) (bnd : Bool) : List ℕ → Bool
  | [] => false
  | c :: cs =>
    (bnd && startsWithCI w (c :: cs) && noWordHead ((c :: cs).drop w.length)) ||
      hasWordCI w (!isWordN c) cs

/-- The blacklistPatterns test of the route. -/
def blacklistedName (s : String) : Bool :=
  hasWordCI (strNats "baidu") true (strNats s) ||
    hasWordCI (strNats "ernie") true (strNats s)

/-- One attempt of the free-tier regex at the current position: an opening
parenthesis, optional whitespace, the word free (case-insensitive),
optional whitespace, a closing parenthesis. -/
def freeAt (l : List ℕ) : Bool :=
  match l with
  | [] => false
  | c :: r =>
    if c = 40 then
      let r1 := r.dropWhile isSpaceN
      if startsWithCI (strNats "free") r1 then
        match (r1.drop 4).dropWhile isSpaceN with
        | 41 :: _ => true
        | _ => false
      else false
    else false

/-- The free-tier marker test of the route, at every position. -/
def hasFreeTier : List ℕ → Bool
  | [] => false
  | c :: cs => freeAt (c :: cs) || hasFreeTier cs

/-- Whether a name is skipped as a free-tier offering. -/
def freeTierName (s : String) : Bool := hasFreeTier (strNats s)

/-- A raw entry of the upstream envelope data array: only the name field is
consumed by the route (a missing name is read as the empty string). -/
structure RawModel where
  name : Option String
deriving DecidableEq, Repr

/-- energyConsumptionFactor of the route: 7.594e-9 kWh per output token per
billion parameters. -/
def energyConsumptionFactor : ℚ := 7594 / 1000000000000

/-- The per-entry processing of the refresh loop: blacklist, free-tier
marker, regex extraction with maximum-candidate selection, and the strictly
positive check, producing the catalog entry with its derived emissions. -/
def processEntry (raw : RawModel) : Option ModelData :=
  if blacklistedName (raw.name.getD "") then none
  else if freeTierName (raw.name.getD "") then none
  else
    match extractCandidate (raw.name.getD "") with
    | none => none
    | some p =>
      if 0 < p then
        some { name := raw.name.getD ""
               parameters_in_billions := JNum.finite p
               emissions_per_token_kWh := JNum.finite (p * energyConsumptionFactor) }
      else none

/-- modelsWithEmissions: the loop over the upstream data array. -/
def processFeed (feed : List RawModel) : List ModelData := feed.filterMap processEntry

/-- The first entry of the essentialModels constant of the route. -/
def dsEssential : ModelData :=
  { name := "DeepSeek V3 0324"
    parameters_in_billions := JNum.finite 675
    emissions_per_token_kWh := JNum.finite (675 * energyConsumptionFactor) }

/-- The second entry of the essentialModels constant of the route. -/
def kimiEssential : ModelData :=
  { name := "Kimi K2"
    parameters_in_billions := JNum.finite 1000
    emissions_per_token_kWh := JNum.finite (1000 * energyConsumptionFactor) }

/-- The essentialModels constant of the route. -/
def essentialModels : List ModelData := [dsEssential, kimiEssential]

/-- One step of the essentials loop: append the essential entry unless a
case-insensitive name match is already present. -/
def injectStep (acc : List ModelData) (e : ModelData) : List ModelData :=
  if acc.any (fun m => decide (nameKey m.name = nameKey e.name)) then acc
  else acc ++ [e]

/-- The essentials loop of the route. -/
def injectEssentials (ms : List ModelData) : List ModelData :=
  essentialModels.foldl injectStep ms

/-- The validity predicate of the route filters: a finite, strictly
positive parameter count. -/
def validB (m : ModelData) : Bool :=
  m.parameters_in_billions.isFinite && decide (0 < m.parameters_in_billions.toQ)

/-- Stable insertion for the descending sort by parameter count. -/
def insertByParams (a : ModelData) : List ModelData → List ModelData
  | [] => [a]
  | b :: bs =>
    if b.parameters_in_billions.toQ ≤ a.parameters_in_billions.toQ then a :: b :: bs
    else b :: insertByParams a bs

/-- The stable descending sort by parameter count applied to cleanModels. -/
def sortByParamsDesc (l : List ModelData) : List ModelData :=
  l.foldr insertByParams []

/-- The fallbackModels constant of the route. -/
def fallbackModels : List ModelData :=
  [ ⟨"GPT-4 Turbo", JNum.finite 175, JNum.finite (1329 / 1000000000)⟩,
    ⟨"Claude-3 Opus", JNum.finite 175, JNum.finite (1329 / 1000000000)⟩,
    ⟨"Llama 2 70B", JNum.finite 70, JNum.finite (5316 / 10000000000)⟩,
    ⟨"Mixtral 8x7B", JNum.finite 7, JNum.finite (5316 / 100000000000)⟩,
    ⟨"Llama 2 13B", JNum.finite 13, JNum.finite (9872 / 100000000000)⟩,
    ⟨"Llama 2 7B", JNum.finite 7, JNum.finite (5316 / 100000000000)⟩,
    ⟨"Mistral 7B", JNum.finite 7, JNum.finite (5316 / 100000000000)⟩,
    ⟨"CodeLlama 34B", JNum.finite 34, JNum.finite (2582 / 10000000000)⟩,
    ⟨"Vicuna 13B", JNum.finite 13, JNum.finite (9872 / 100000000000)⟩,
    ⟨"WizardLM 70B", JNum.finite 70, JNum.finite (5316 / 10000000000)⟩,
    ⟨"DeepSeek V3 0324", JNum.finite 675, JNum.finite (675 * energyConsumptionFactor)⟩,
    ⟨"Kimi K2", JNum.finite 1000, JNum.finite (1000 * energyConsumptionFactor)⟩ ]

/-- The full successful-refresh catalog: process the feed, inject the
essential models, drop invalid entries, sort descending. -/
def refreshCatalog (feed : List RawModel) : List ModelData :=
  sortByParamsDesc ((injectEssentials (processFeed feed)).filter validB)

/-- The observable outcome of an upstream fetch that did not throw: the
response status, whether the content type includes application/json, and
the parsed envelope (some feed when the payload has a data array field,
none when the structure is invalid). -/
structure FetchResponse where
  ok : Bool
  contentTypeJson : Bool
  envelope : Option (List RawModel)
deriving DecidableEq, Repr

/-- The outcome of the fetch attempt: a thrown error (network failure or
the 10 second abort timeout) or a response. -/
inductive FetchResult where
  | threw
  | responded (r : FetchResponse)
deriving DecidableEq, Repr

/-- The module-level cache of the route. -/
structure CacheState where
  cachedModels : Option (List ModelData)
  lastFetched : ℤ
deriving DecidableEq, Repr

/-- The staleness window of the cache, in milliseconds. -/
def oneDay : ℤ := 86400000

/-- The body of the GET handler after the cache check: the try block
follows the response checks in order, and the catch block serves and
caches the fallback.  Returns the JSON payload and the new cache state. -/
def refreshResult (st : CacheState) (now : ℤ) (fr : FetchResult) :
    List ModelData × CacheState :=
  match fr with
  | FetchResult.threw => (fallbackModels, ⟨some fallbackModels, now⟩)
  | FetchResult.responded r =>
    if !r.ok then (fallbackModels, st)
    else if !r.contentTypeJson then (fallbackModels, st)
    else
      match r.envelope with
      | none => (fallbackModels, st)
      | some feed =>
        if (refreshCatalog feed).isEmpty then
          (fallbackModels, ⟨some fallbackModels, now⟩)
        else (refreshCatalog feed, ⟨some (refreshCatalog feed), now⟩)

/-- The GET handler of src/unnamed/part_001 as a function of the cache
state, the current time, and the fetch outcome. -/
def GET (st : CacheState) (now : ℤ) (fr : FetchResult) :
    List ModelData × CacheState :=
  match st.cachedModels with
  | some c =>
    if now - st.lastFetched < oneDay ∧ (c.filter validB).length = c.length then (c, st)
    else refreshResult st now fr
  | none => refreshResult st now fr

/-! ## Relating the global scan to the position-wise match enumeration -/

theorem tryMatch_head_digit {c : ℕ} {cs : List ℕ} {p : ℚ × List ℕ}
    (h : tryMatch (c :: cs) = some p) : isDigitN c = true := by
  unfold tryMatch at h
  by_cases hd : ((c :: cs).takeWhile isDigitN).isEmpty
  · simp [hd] at h
  · rw [List.takeWhile_cons] at hd
    by_cases hc : isDigitN c = true
    · exact hc
    · simp [hc] at hd

theorem isWordN_of_digit {c : ℕ} (h : isDigitN c = true) : isWordN c = true := by
  unfold isWordN
  rw [h]
  rfl

theorem specAux_tail_subset (bnd : Bool) (c : ℕ) (cs : List ℕ) {x : ℚ}
    (hx : x ∈ specAux (!isWordN c) cs) : x ∈ specAux bnd (c :: cs) := by
  show x ∈ specAux bnd (c :: cs)
  unfold specAux
  cases hm : (if bnd then tryMatch (c :: cs) else none) with
  | none => exact hx
  | some p => exact List.mem_cons_of_mem p.1 hx

theorem specAux_empty_scan {l : List ℕ} :
    ∀ {bnd : Bool}, specAux bnd l = [] → ∀ skip, scanAux skip bnd l = [] := by
  induction l with
  | nil => intro bnd _ skip; cases skip <;> rfl
  | cons c cs ih =>
    intro bnd hspec skip
    have hsplit : (if bnd then tryMatch (c :: cs) else none) = none ∧
        specAux (!isWordN c) cs = [] := by
      unfold specAux at hspec
      cases hm : (if bnd then tryMatch (c :: cs) else none) with
      | none => rw [hm] at hspec; exact ⟨rfl, hspec⟩
      | some p => rw [hm] at hspec; simp at hspec
    cases skip with
    | zero =>
      unfold scanAux
      rw [hsplit.1]
      exact ih hsplit.2 0
    | succ k =>
      unfold scanAux
      exact ih hsplit.2 k

theorem scan_empty_spec {l : List ℕ} :
    ∀ {bnd : Bool}, scanAux 0 bnd l = [] → specAux bnd l = [] := by
  induction l with
  | nil => intro bnd _; rfl
  | cons c cs ih =>
    intro bnd hscan
    unfold scanAux at hscan
    cases hm : (if bnd then tryMatch (c :: cs) else none) with
    | none =>
      rw [hm] at hscan
      unfold specAux
      rw [hm]
      exact ih hscan
    | some p => rw [hm] at hscan; simp at hscan

theorem scan_subset_spec {l : List ℕ} :
    ∀ {skip : ℕ} {bnd : Bool} {x : ℚ}, x ∈ scanAux skip bnd l → x ∈ specAux bnd l := by
  induction l with
  | nil => intro skip bnd x hx; cases skip <;> simp [scanAux] at hx
  | cons c cs ih =>
    intro skip bnd x hx
    cases skip with
    | succ k =>
      unfold scanAux at hx
      exact specAux_tail_subset bnd c cs (ih hx)
    | zero =>
      unfold scanAux at hx
      cases hm : (if bnd then tryMatch (c :: cs) else none) with
      | none =>
        rw [hm] at hx
        exact specAux_tail_subset bnd c cs (ih hx)
      | some p =>
        rw [hm] at hx
        have hbnd : bnd = true := by
          cases bnd
          · simp at hm
          · rfl
        have htm : tryMatch (c :: cs) = some p := by
          rw [hbnd] at hm; simpa using hm
        have hdg : isDigitN c = true := tryMatch_head_digit htm
        have hw : (!isWordN c) = false := by rw [isWordN_of_digit hdg]; rfl
        rcases List.mem_cons.mp hx with hx0 | hxr
        · unfold specAux
          rw [hm]
          exact hx0 ▸ List.mem_cons_self _ _
        · have : x ∈ specAux false cs := ih hxr
          unfold specAux
          rw [hm]
          exact List.mem_cons_of_mem p.1 (hw ▸ this)

/-! ## Case invariance of the scanner under toLowerCase -/

theorem lowerNat_cases {x y : ℕ} (h : lowerNat x = lowerNat y) :
    x = y ∨ (65 ≤ x ∧ x ≤ 90 ∧ y = x + 32) ∨ (65 ≤ y ∧ y ≤ 90 ∧ x = y + 32) := by
  unfold lowerNat at h
  split_ifs at h <;> omega

theorem lower_digit {x y : ℕ} (h : lowerNat x = lowerNat y) :
    isDigitN x = isDigitN y := by
  simp only [isDigitN, decide_eq_decide]
  rcases lowerNat_cases h with h1 | h1 | h1 <;> omega

theorem lower_digit_eq {x y : ℕ} (h : lowerNat x = lowerNat y)
    (hd : isDigitN x = true) : x = y := by
  have hx : 48 ≤ x ∧ x ≤ 57 := by simpa [isDigitN] using hd
  rcases lowerNat_cases h with h1 | h1 | h1 <;> omega

theorem lower_space {x y : ℕ} (h : lowerNat x = lowerNat y) :
    isSpaceN x = isSpaceN y := by
  simp only [isSpaceN, decide_eq_decide]
  rcases lowerNat_cases h with h1 | h1 | h1 <;> omega

theorem lower_word {x y : ℕ} (h : lowerNat x = lowerNat y) :
    isWordN x = isWordN y := by
  have hiff : isWordN x = true ↔ isWordN y = true := by
    simp only [isWordN, isDigitN, Bool.or_eq_true, decide_eq_true_eq]
    rcases lowerNat_cases h with h1 | h1 | h1 <;> omega
  cases hx : isWordN x <;> cases hy : isWordN y <;> simp [hx, hy] at hiff ⊢

theorem lower_unit {x y : ℕ} (h : lowerNat x = lowerNat y) :
    unitOf x = unitOf y := by
  unfold unitOf
  rcases lowerNat_cases h with h1 | h1 | h1 <;> split_ifs <;>
    first | rfl | omega

theorem lower_dot {x y : ℕ} (h : lowerNat x = lowerNat y) : (x = 46) = (y = 46) := by
  rcases lowerNat_cases h with h1 | h1 | h1 <;>
    simp only [eq_iff_iff] <;> omega

/-- The pointwise lowercase-equality relation on code point lists. -/
def LowEq (a b : List ℕ) : Prop := List.Forall₂ (fun x y => lowerNat x = lowerNat y) a b

theorem LowEq_takeWhile_digit {a b : List ℕ} (h : LowEq a b) :
    a.takeWhile isDigitN = b.takeWhile isDigitN := by
  induction h with
  | nil => rfl
  | cons hxy htail ih =>
    rename_i x y xs ys
    rw [List.takeWhile_cons, List.takeWhile_cons, ← lower_digit hxy]
    cases hd : isDigitN x with
    | false => rfl
    | true =>
      have hxeq : x = y := lower_digit_eq hxy hd
      subst hxeq
      rw [ih]

theorem LowEq_dropWhile_digit {a b : List ℕ} (h : LowEq a b) :
    LowEq (a.dropWhile isDigitN) (b.dropWhile isDigitN) := by
  induction h with
  | nil => exact List.Forall₂.nil
  | cons hxy htail ih =>
    rename_i x y xs ys
    rw [List.dropWhile_cons, List.dropWhile_cons, ← lower_digit hxy]
    cases hd : isDigitN x with
    | false => exact List.Forall₂.cons hxy htail
    | true => exact ih

theorem LowEq_dropWhile_space {a b : List ℕ} (h : LowEq a b) :
    LowEq (a.dropWhile isSpaceN) (b.dropWhile isSpaceN) := by
  induction h with
  | nil => exact List.Forall₂.nil
  | cons hxy htail ih =>
    rename_i x y xs ys
    rw [List.dropWhile_cons, List.dropWhile_cons, ← lower_space hxy]
    cases hd : isSpaceN x with
    | false => exact List.Forall₂.cons hxy htail
    | true => exact ih

theorem LowEq_fracSplit {a b : List ℕ} (h : LowEq a b) :
    (fracSplit a).1 = (fracSplit b).1 ∧ LowEq (fracSplit a).2 (fracSplit b).2 := by
  cases h with
  | nil => exact ⟨rfl, List.Forall₂.nil⟩
  | cons hxy htail =>
    rename_i x y xs ys
    have hdot := lower_dot hxy
    unfold fracSplit
    simp only []
    by_cases hx46 : x = 46
    · have hy46 : y = 46 := by rw [← hdot]; exact hx46
      rw [if_pos hx46, if_pos hy46, LowEq_takeWhile_digit htail]
      by_cases hemp : (ys.takeWhile isDigitN).isEmpty
      · rw [if_pos hemp, if_pos hemp]
        exact ⟨rfl, List.Forall₂.cons hxy htail⟩
      · rw [if_neg hemp, if_neg hemp]
        exact ⟨rfl, LowEq_dropWhile_digit htail⟩
    · have hy46 : ¬ y = 46 := by rw [← hdot]; exact hx46
      rw [if_neg hx46, if_neg hy46]
      exact ⟨rfl, List.Forall₂.cons hxy htail⟩

theorem LowEq_noWordHead {a b : List ℕ} (h : LowEq a b) :
    noWordHead a = noWordHead b := by
  cases h with
  | nil => rfl
  | cons hxy htail => simp only [noWordHead, lower_word hxy]

theorem LowEq_tryMatch {a b : List ℕ} (h : LowEq a b) :
    (tryMatch a = none ∧ tryMatch b = none) ∨
      ∃ v ra rb, tryMatch a = some (v, ra) ∧ tryMatch b = some (v, rb) ∧ LowEq ra rb := by
  have htw := LowEq_takeWhile_digit h
  have hfr := LowEq_fracSplit (LowEq_dropWhile_digit h)
  have hr3 := LowEq_dropWhile_space hfr.2
  unfold tryMatch
  rw [htw, hfr.1]
  by_cases hemp : (b.takeWhile isDigitN).isEmpty
  · rw [if_pos hemp, if_pos hemp]
    left
    exact ⟨rfl, rfl⟩
  · rw [if_neg hemp, if_neg hemp]
    revert hr3
    generalize (fracSplit (a.dropWhile isDigitN)).2.dropWhile isSpaceN = ra1
    generalize (fracSplit (b.dropWhile isDigitN)).2.dropWhile isSpaceN = rb1
    intro hr3
    cases hr3 with
    | nil =>
      left
      exact ⟨rfl, rfl⟩
    | cons huu htail2 =>
      rename_i u u2 ra0 rb0
      simp only []
      rw [← lower_unit huu]
      cases hu : unitOf u with
      | none =>
        left
        exact ⟨rfl, rfl⟩
      | some k =>
        simp only []
        rw [← LowEq_noWordHead htail2]
        by_cases hw : noWordHead ra0 = true
        · right
          refine ⟨numValue (b.takeWhile isDigitN)
            (fracSplit (b.dropWhile isDigitN)).1 * unitMul k, ra0, rb0, ?_, ?_, htail2⟩
          · rw [if_pos hw]
          · rw [if_pos hw]
        · left
          rw [if_neg hw, if_neg hw]
          exact ⟨rfl, rfl⟩

theorem LowEq_scanAux {a b : List ℕ} (h : LowEq a b) :
    ∀ skip bnd, scanAux skip bnd a = scanAux skip bnd b := by
  induction h with
  | nil => intro skip bnd; cases skip <;> rfl
  | cons hxy htail ih =>
    rename_i x y xs ys
    intro skip bnd
    cases skip with
    | succ k =>
      show scanAux k (!isWordN x) xs = scanAux k (!isWordN y) ys
      rw [lower_word hxy]
      exact ih k _
    | zero =>
      cases bnd with
      | false =>
        show scanAux 0 (!isWordN x) xs = scanAux 0 (!isWordN y) ys
        rw [lower_word hxy]
        exact ih 0 _
      | true =>
        unfold scanAux
        rcases LowEq_tryMatch (List.Forall₂.cons hxy htail) with ⟨hna, hnb⟩ |
          ⟨v, ra, rb, hsa, hsb, hlow⟩
        · rw [if_pos rfl, if_pos rfl, hna, hnb]
          simp only []
          rw [lower_word hxy]
          exact ih 0 _
        · rw [if_pos rfl, if_pos rfl, hsa, hsb]
          simp only []
          have hlen1 : xs.length = ys.length := htail.length_eq
          have hlen2 : ra.length = rb.length := hlow.length_eq
          rw [List.length_cons, List.length_cons, hlen1, hlen2, ih _ false]

theorem map_lowerNat_forall₂ :
    ∀ (a b : List ℕ), a.map lowerNat = b.map lowerNat → LowEq a b := by
  intro a
  induction a with
  | nil =>
    intro b hb
    cases b with
    | nil => exact List.Forall₂.nil
    | cons y ys => simp at hb
  | cons x xs ih =>
    intro b hb
    cases b with
    | nil => simp at hb
    | cons y ys =>
      simp only [List.map_cons, List.cons.injEq] at hb
      exact List.Forall₂.cons hb.1 (ih ys hb.2)

theorem nameKey_scanVals {s t : String} (h : nameKey s = nameKey t) :
    scanVals s = scanVals t := by
  have hf2 : LowEq (strNats s) (strNats t) := map_lowerNat_forall₂ _ _ h
  unfold scanVals
  exact LowEq_scanAux hf2 0 true

theorem nameKey_extract {s t : String} (h : nameKey s = nameKey t) :
    extractCandidate s = extractCandidate t := by
  unfold extractCandidate
  rw [nameKey_scanVals h]

/-! ## Pipeline helper lemmas -/

theorem filter_length_eq_iff {l : List ModelData} {p : ModelData → Bool} :
    (l.filter p).length = l.length ↔ ∀ m ∈ l, p m := by
  rw [← List.countP_eq_length_filter]
  exact List.countP_eq_length

theorem insertByParams_perm (a : ModelData) (l : List ModelData) :
    List.Perm (insertByParams a l) (a :: l) := by
  induction l with
  | nil => exact List.Perm.refl _
  | cons b bs ih =>
    unfold insertByParams
    by_cases hc : b.parameters_in_billions.toQ ≤ a.parameters_in_billions.toQ
    · rw [if_pos hc]
    · rw [if_neg hc]
      exact (List.Perm.cons b ih).trans (List.Perm.swap a b bs)

theorem sortByParamsDesc_perm (l : List ModelData) :
    List.Perm (sortByParamsDesc l) l := by
  induction l with
  | nil => exact List.Perm.refl _
  | cons a l ih =>
    show List.Perm (insertByParams a (sortByParamsDesc l)) (a :: l)
    exact (insertByParams_perm a _).trans (List.Perm.cons a ih)

theorem processEntry_some {raw : RawModel} {m : ModelData}
    (h : processEntry raw = some m) :
    ∃ p : ℚ, 0 < p ∧ extractCandidate (raw.name.getD "") = some p ∧
      m.name = raw.name.getD "" ∧ m.parameters_in_billions = JNum.finite p ∧
      m.emissions_per_token_kWh = JNum.finite (p * energyConsumptionFactor) := by
  unfold processEntry at h
  by_cases hb : blacklistedName (raw.name.getD "")
  · rw [if_pos hb] at h; exact absurd h (by simp)
  · rw [if_neg hb] at h
    by_cases hf : freeTierName (raw.name.getD "")
    · rw [if_pos hf] at h; exact absurd h (by simp)
    · rw [if_neg hf] at h
      cases he : extractCandidate (raw.name.getD "") with
      | none => rw [he] at h; exact absurd h (by simp)
      | some p =>
        rw [he] at h
        simp only [] at h
        by_cases hp : (0 : ℚ) < p
        · rw [if_pos hp] at h
          refine ⟨p, hp, rfl, ?_, ?_, ?_⟩ <;> rw [← Option.some_inj.mp h]
        · rw [if_neg hp] at h; exact absurd h (by simp)

theorem processFeed_mem {feed : List RawModel} {m : ModelData}
    (h : m ∈ processFeed feed) :
    ∃ raw ∈ feed, processEntry raw = some m := by
  rcases List.mem_filterMap.mp h with ⟨raw, hraw, hp⟩
  exact ⟨raw, hraw, hp⟩

theorem extract_deepseek_none : extractCandidate "DeepSeek V3 0324" = none := by
  have h : scanVals "DeepSeek V3 0324" = [] := by decide
  unfold extractCandidate
  rw [h]

theorem extract_kimi_none : extractCandidate "Kimi K2" = none := by
  have h : scanVals "Kimi K2" = [] := by decide
  unfold extractCandidate
  rw [h]

theorem processFeed_not_essential {feed : List RawModel} {m : ModelData}
    (h : m ∈ processFeed feed) :
    nameKey m.name ≠ nameKey "DeepSeek V3 0324" ∧
      nameKey m.name ≠ nameKey "Kimi K2" := by
  rcases processFeed_mem h with ⟨raw, _, hp⟩
  rcases processEntry_some hp with ⟨p, _, hext, hname, _, _⟩
  constructor
  · intro hkey
    rw [hname] at hkey
    have := nameKey_extract hkey
    rw [hext, extract_deepseek_none] at this
    exact absurd this (by simp)
  · intro hkey
    rw [hname] at hkey
    have := nameKey_extract hkey
    rw [hext, extract_kimi_none] at this
    exact absurd this (by simp)

/-- The number of entries of a list whose name equals the given name up to
case. -/
def cntName (t : String) (l : List ModelData) : ℕ :=
  l.countP (fun m => decide (nameKey m.name = nameKey t))

theorem injectStep_of_absent {l : List ModelData} {e : ModelData}
    (h : ∀ m ∈ l, nameKey m.name ≠ nameKey e.name) :
    injectStep l e = l ++ [e] := by
  unfold injectStep
  have hany : l.any (fun m => decide (nameKey m.name = nameKey e.name)) = false := by
    rw [← Bool.not_eq_true, List.any_eq_true]
    rintro ⟨m, hm, hdec⟩
    exact h m hm (of_decide_eq_true hdec)
  rw [hany]
  rfl

theorem injectEssentials_eq {ms : List ModelData}
    (hds : ∀ m ∈ ms, nameKey m.name ≠ nameKey "DeepSeek V3 0324")
    (hk : ∀ m ∈ ms, nameKey m.name ≠ nameKey "Kimi K2") :
    injectEssentials ms = ms ++ [dsEssential, kimiEssential] := by
  have h1 : injectStep ms dsEssential = ms ++ [dsEssential] :=
    injectStep_of_absent (fun m hm => hds m hm)
  have h2 : injectStep (ms ++ [dsEssential]) kimiEssential =
      (ms ++ [dsEssential]) ++ [kimiEssential] := by
    refine injectStep_of_absent ?_
    intro m hm
    rcases List.mem_append.mp hm with hin | hin
    · exact hk m hin
    · rw [List.mem_singleton.mp hin]
      decide
  show injectStep (injectStep ms dsEssential) kimiEssential = _
  rw [h1, h2, List.append_assoc]
  rfl

theorem refreshCatalog_essential_once (feed : List RawModel) :
    cntName "DeepSeek V3 0324" (refreshCatalog feed) = 1 ∧
      cntName "Kimi K2" (refreshCatalog feed) = 1 := by
  have hds : ∀ m ∈ processFeed feed, nameKey m.name ≠ nameKey "DeepSeek V3 0324" :=
    fun m hm => (processFeed_not_essential hm).1
  have hk : ∀ m ∈ processFeed feed, nameKey m.name ≠ nameKey "Kimi K2" :=
    fun m hm => (processFeed_not_essential hm).2
  have hinj := injectEssentials_eq hds hk
  unfold refreshCatalog
  rw [hinj]
  have hperm := sortByParamsDesc_perm
    ((processFeed feed ++ [dsEssential, kimiEssential]).filter validB)
  constructor <;>
    · unfold cntName
      rw [hperm.countP_eq, List.countP_filter, List.countP_append]
      rw [List.countP_eq_zero.mpr (by
        intro m hm
        simp only [Bool.and_eq_true, decide_eq_true_eq, not_and]
        intro hkey
        first
          | exact absurd hkey (hds m hm)
          | exact absurd hkey (hk m hm))]
      decide

theorem injectStep_subset {acc : List ModelData} {e x : ModelData}
    (hx : x ∈ injectStep acc e) : x ∈ acc ∨ x = e := by
  unfold injectStep at hx
  by_cases hany : acc.any (fun m => decide (nameKey m.name = nameKey e.name))
  · rw [if_pos hany] at hx
    exact Or.inl hx
  · rw [if_neg hany] at hx
    rcases List.mem_append.mp hx with hin | hin
    · exact Or.inl hin
    · exact Or.inr (List.mem_singleton.mp hin)

theorem injectEssentials_mem {ms : List ModelData} {x : ModelData}
    (hx : x ∈ injectEssentials ms) :
    x ∈ ms ∨ x = dsEssential ∨ x = kimiEssential := by
  have hx2 : x ∈ injectStep (injectStep ms dsEssential) kimiEssential := hx
  rcases injectStep_subset hx2 with hin | heq
  · rcases injectStep_subset hin with hin2 | heq2
    · exact Or.inl hin2
    · exact Or.inr (Or.inl heq2)
  · exact Or.inr (Or.inr heq)

theorem fallbackModels_valid : ∀ m ∈ fallbackModels, validB m = true := by decide

theorem refreshCatalog_valid {feed : List RawModel} {m : ModelData}
    (h : m ∈ refreshCatalog feed) : validB m = true := by
  have hperm := sortByParamsDesc_perm ((injectEssentials (processFeed feed)).filter validB)
  have hmem : m ∈ (injectEssentials (processFeed feed)).filter validB :=
    hperm.mem_iff.mp h
  exact (List.mem_filter.mp hmem).2

theorem refreshResult_valid {st : CacheState} {now : ℤ} {fr : FetchResult}
    {m : ModelData} (h : m ∈ (refreshResult st now fr).1) : validB m = true := by
  unfold refreshResult at h
  cases fr with
  | threw => exact fallbackModels_valid m h
  | responded r =>
    simp only [] at h
    by_cases hok : r.ok
    · by_cases hct : r.contentTypeJson
      · rw [hok, hct] at h
        simp only [Bool.not_true, Bool.false_eq_true, if_false] at h
        cases henv : r.envelope with
        | none => rw [henv] at h; exact fallbackModels_valid m h
        | some feed =>
          rw [henv] at h
          simp only [] at h
          by_cases hemp : (refreshCatalog feed).isEmpty
          · rw [if_pos hemp] at h
            exact fallbackModels_valid m h
          · rw [if_neg hemp] at h
            exact refreshCatalog_valid h
      · rw [hok] at h
        simp only [Bool.not_true, Bool.false_eq_true, if_false] at h
        rw [Bool.not_eq_true] at hct
        rw [hct] at h
        simp only [Bool.not_false, if_true] at h
        exact fallbackModels_valid m h
    · rw [Bool.not_eq_true] at hok
      rw [hok] at h
      simp only [Bool.not_false, if_true] at h
      exact fallbackModels_valid m h

/-! ## Claim theorems for the metrics engine -/

/-- C1: for every model with finite, strictly positive parameter count,
every tokenCount > 0, every precision, pue, electricity price and region,
calculateMetrics returns exactly the formula chain of the specification:
totalFlops = 2 p 1e9 t, totalEnergyKwh = totalFlops / (6.59e11 m) / 3.6e6
times pue with m = 1, 2, 4 for FP32, FP16, FP8, totalCost = energy times
price, costPer1M = energy / t times 1e6 times price, carbon = energy times
carbon intensity, energyPerToken = energy / t (the rational model makes the
equalities exact, which subsumes the stated 1e-9 relative error bound). -/
theorem metrics_formula_correct (name : String) (emis : JNum)
    (q tokenCount : ℚ) (precision : Precision) (pue electricityPrice : ℚ)
    (rname : String) (ci : ℚ) (hq : 0 < q) (ht : 0 < tokenCount) :
    calculateMetrics (some ⟨name, JNum.finite q, emis⟩) tokenCount precision
        pue electricityPrice ⟨rname, ci⟩ =
      { totalCost := JNum.finite (2 * q * 1000000000 * tokenCount /
          (baseEfficiency * precisionMultiplier precision) / 3600000 * pue *
          electricityPrice)
        costPer1M := JNum.finite (2 * q * 1000000000 * tokenCount /
          (baseEfficiency * precisionMultiplier precision) / 3600000 * pue /
          tokenCount * 1000000 * electricityPrice)
        totalEnergyKwh := JNum.finite (2 * q * 1000000000 * tokenCount /
          (baseEfficiency * precisionMultiplier precision) / 3600000 * pue)
        carbonEmissionsKg := JNum.finite (2 * q * 1000000000 * tokenCount /
          (baseEfficiency * precisionMultiplier precision) / 3600000 * pue * ci)
        totalFlops := JNum.finite (2 * q * 1000000000 * tokenCount)
        energyPerToken := JNum.finite (2 * q * 1000000000 * tokenCount /
          (baseEfficiency * precisionMultiplier precision) / 3600000 * pue /
          tokenCount) } ∧
      precisionMultiplier Precision.FP32 = 1 ∧
      precisionMultiplier Precision.FP16 = 2 ∧
      precisionMultiplier Precision.FP8 = 4 ∧
      baseEfficiency = 659000000000 := by
  have htne : tokenCount ≠ 0 := ne_of_gt ht
  refine ⟨?_, rfl, rfl, rfl, rfl⟩
  simp only [calculateMetrics, jdiv, jmul, if_neg (not_le.mpr hq), if_neg htne]

/-- Witness for C1 at the scenario of the specification: 70 billion
parameters, one million tokens, half precision, pue 1.2, electricity price
0.152, carbon intensity 0.345; totalFlops evaluates to 1.4e17 and the
efficiency to 1.318e12. -/
theorem metrics_formula_correct_witness :
    (0 : ℚ) < 70 ∧ (0 : ℚ) < 1000000 ∧
    (calculateMetrics (some ⟨"Llama 2 70B", JNum.finite 70,
        JNum.finite (5316/10000000000)⟩) 1000000 Precision.FP16 (6/5) (19/125)
        ⟨"United States (Average)", 69/200⟩).totalFlops
      = JNum.finite 140000000000000000 ∧
    baseEfficiency * precisionMultiplier Precision.FP16 = 1318000000000 := by
  refine ⟨by norm_num, by norm_num, ?_, by norm_num [baseEfficiency, precisionMultiplier]⟩
  have h := metrics_formula_correct "Llama 2 70B" (JNum.finite (5316/10000000000))
    70 1000000 Precision.FP16 (6/5) (19/125) "United States (Average)" (69/200)
    (by norm_num) (by norm_num)
  rw [h.1]
  norm_num

/-- C2: a null model, a non-finite parameter count, and a non-positive
parameter count all produce the all-zero result, with no intermediate
computation (calculateMetrics is a total function in the embedding, so no
exception can occur). -/
theorem metrics_invalid_model_zero (tokenCount : ℚ) (precision : Precision)
    (pue electricityPrice : ℚ) (region : RegionData) :
    calculateMetrics none tokenCount precision pue electricityPrice region
        = zeroResult ∧
    (∀ m : ModelData, m.parameters_in_billions.isFinite = false →
      calculateMetrics (some m) tokenCount precision pue electricityPrice region
        = zeroResult) ∧
    (∀ (m : ModelData) (q : ℚ), m.parameters_in_billions = JNum.finite q →
      q ≤ 0 →
      calculateMetrics (some m) tokenCount precision pue electricityPrice region
        = zeroResult) := by
  refine ⟨rfl, ?_, ?_⟩
  · intro m hm
    unfold calculateMetrics
    simp only []
    cases hp : m.parameters_in_billions with
    | finite q => rw [hp] at hm; simp [JNum.isFinite] at hm
    | posInf => rfl
    | negInf => rfl
    | nan => rfl
  · intro m q hp hq
    unfold calculateMetrics
    simp only []
    rw [hp]
    simp only []
    rw [if_pos hq]

/-- Witness for C2: a null model, a NaN parameter count, and a zero
parameter count each produce the all-zero result. -/
theorem metrics_invalid_model_zero_witness :
    calculateMetrics none 1000 Precision.FP32 1 1 ⟨"Japan", 463/1000⟩
        = zeroResult ∧
    calculateMetrics (some ⟨"bad", JNum.nan, JNum.finite 0⟩) 1000
        Precision.FP32 1 1 ⟨"Japan", 463/1000⟩ = zeroResult ∧
    calculateMetrics (some ⟨"zero", JNum.finite 0, JNum.finite 0⟩) 1000
        Precision.FP32 1 1 ⟨"Japan", 463/1000⟩ = zeroResult := by
  refine ⟨(metrics_invalid_model_zero 1000 Precision.FP32 1 1 ⟨"Japan", 463/1000⟩).1,
    (metrics_invalid_model_zero 1000 Precision.FP32 1 1 ⟨"Japan", 463/1000⟩).2.1
      ⟨"bad", JNum.nan, JNum.finite 0⟩ rfl,
    (metrics_invalid_model_zero 1000 Precision.FP32 1 1 ⟨"Japan", 463/1000⟩).2.2
      ⟨"zero", JNum.finite 0, JNum.finite 0⟩ 0 rfl (le_refl 0)⟩

/-- C3 counterexample: with a valid 70-billion-parameter model and
tokenCount = 0, calculateMetrics does not return the all-zero result: the
costPer1M and energyPerToken fields are NaN (the 0 / 0 division is not
guarded), contradicting the claim that tokenCount ≤ 0 produces the
all-zero result with no NaN field. -/
theorem metrics_zero_tokens_counterexample :
    (calculateMetrics (some ⟨"Llama 2 70B", JNum.finite 70,
        JNum.finite (5316/10000000000)⟩) 0 Precision.FP16 (6/5) (19/125)
        ⟨"United States (Average)", 69/200⟩).costPer1M = JNum.nan ∧
    (calculateMetrics (some ⟨"Llama 2 70B", JNum.finite 70,
        JNum.finite (5316/10000000000)⟩) 0 Precision.FP16 (6/5) (19/125)
        ⟨"United States (Average)", 69/200⟩).energyPerToken = JNum.nan ∧
    calculateMetrics (some ⟨"Llama 2 70B", JNum.finite 70,
        JNum.finite (5316/10000000000)⟩) 0 Precision.FP16 (6/5) (19/125)
        ⟨"United States (Average)", 69/200⟩ ≠ zeroResult := by
  refine ⟨?_, ?_, ?_⟩
  · norm_num [calculateMetrics, baseEfficiency, precisionMultiplier, jmul, jdiv]
  · norm_num [calculateMetrics, baseEfficiency, precisionMultiplier, jmul, jdiv]
  · intro hcontra
    have h2 := congrArg MetricsResult.costPer1M hcontra
    norm_num [calculateMetrics, zeroResult, baseEfficiency,
      precisionMultiplier, jmul, jdiv] at h2
    exact absurd h2 (by simp)

/-- C3 amended: with a valid model and tokenCount = 0, the multiplicative
fields totalFlops, totalEnergyKwh, totalCost and carbonEmissionsKg are 0,
while costPer1M and energyPerToken are NaN from the unguarded 0 / 0
division; no exception occurs (the function is total).  Treating
tokenCount ≤ 0 as the all-zero result is left to callers and is not
enforced by calculateMetrics. -/
theorem metrics_zero_tokens_nan (m : ModelData) (q : ℚ)
    (precision : Precision) (pue electricityPrice : ℚ) (region : RegionData)
    (hp : m.parameters_in_billions = JNum.finite q) (hq : 0 < q) :
    calculateMetrics (some m) 0 precision pue electricityPrice region =
      { totalCost := JNum.finite 0
        costPer1M := JNum.nan
        totalEnergyKwh := JNum.finite 0
        carbonEmissionsKg := JNum.finite 0
        totalFlops := JNum.finite 0
        energyPerToken := JNum.nan } := by
  unfold calculateMetrics
  simp only []
  rw [hp]
  simp only []
  rw [if_neg (not_le.mpr hq)]
  have hE : 2 * q * 1000000000 * (0 : ℚ) /
      (baseEfficiency * precisionMultiplier precision) / 3600000 * pue = 0 := by
    rw [mul_zero, zero_div, zero_div, zero_mul]
  rw [hE]
  simp only [jdiv, jmul, if_pos rfl]
  norm_num

/-- Witness for the amended C3 at a concrete valid model. -/
theorem metrics_zero_tokens_nan_witness :
    calculateMetrics (some ⟨"Llama 2 70B", JNum.finite 70,
        JNum.finite (5316/10000000000)⟩) 0 Precision.FP16 (6/5) (19/125)
        ⟨"United States (Average)", 69/200⟩ =
      { totalCost := JNum.finite 0
        costPer1M := JNum.nan
        totalEnergyKwh := JNum.finite 0
        carbonEmissionsKg := JNum.finite 0
        totalFlops := JNum.finite 0
        energyPerToken := JNum.nan } :=
  metrics_zero_tokens_nan ⟨"Llama 2 70B", JNum.finite 70,
    JNum.finite (5316/10000000000)⟩ 70 Precision.FP16 (6/5) (19/125)
    ⟨"United States (Average)", 69/200⟩ rfl (by norm_num)

/-- C9: the result of calculateMetrics depends only on the parameter
count, token count, precision, pue, electricity price and carbon
intensity: the model name, the model emissions field and the region name
are never read.  Determinism is immediate: the embedding is a pure
function of these inputs. -/
theorem metrics_depends_only_on_declared_inputs (n1 n2 : String)
    (e1 e2 p : JNum) (tokenCount : ℚ) (precision : Precision)
    (pue electricityPrice : ℚ) (rn1 rn2 : String) (ci : ℚ) :
    calculateMetrics (some ⟨n1, p, e1⟩) tokenCount precision pue
        electricityPrice ⟨rn1, ci⟩ =
      calculateMetrics (some ⟨n2, p, e2⟩) tokenCount precision pue
        electricityPrice ⟨rn2, ci⟩ := by
  unfold calculateMetrics
  cases p <;> rfl

/-! ## Claim theorems for the catalog route -/

/-- C6: a GET call with a cached catalog, within the 24 hour window, whose
entries all satisfy the validity predicate returns the identical cached
catalog and leaves the state unchanged, for every fetch outcome (so no
upstream fetch is consulted); if any cached entry fails the predicate, or
the call is past the window, the refresh path runs (the single fetch
attempt); a successful refresh with a nonempty normalized catalog replaces
the cache with that catalog and the current timestamp. -/
theorem cache_freshness :
    (∀ (st : CacheState) (now : ℤ) (fr : FetchResult) (c : List ModelData),
      st.cachedModels = some c → now - st.lastFetched < oneDay →
      (∀ m ∈ c, validB m = true) → GET st now fr = (c, st)) ∧
    (∀ (st : CacheState) (now : ℤ) (fr : FetchResult) (c : List ModelData),
      st.cachedModels = some c → now - st.lastFetched < oneDay →
      ¬ (∀ m ∈ c, validB m = true) →
      GET st now fr = refreshResult st now fr) ∧
    (∀ (st : CacheState) (now : ℤ) (fr : FetchResult),
      ¬ (now - st.lastFetched < oneDay) →
      GET st now fr = refreshResult st now fr) ∧
    (∀ (st : CacheState) (now : ℤ) (feed : List RawModel),
      refreshCatalog feed ≠ [] →
      refreshResult st now (FetchResult.responded ⟨true, true, some feed⟩) =
        (refreshCatalog feed, ⟨some (refreshCatalog feed), now⟩)) := by
  refine ⟨?_, ?_, ?_, ?_⟩
  · intro st now fr c hc hfresh hvalid
    unfold GET
    rw [hc]
    simp only []
    rw [if_pos ⟨hfresh, filter_length_eq_iff.mpr hvalid⟩]
  · intro st now fr c hc hfresh hinvalid
    unfold GET
    rw [hc]
    simp only []
    rw [if_neg (fun hcond => hinvalid (filter_length_eq_iff.mp hcond.2))]
  · intro st now fr hstale
    unfold GET
    cases hc : st.cachedModels with
    | none => rfl
    | some c =>
      simp only []
      rw [if_neg (fun hcond => hstale hcond.1)]
  · intro st now feed hne
    unfold refreshResult
    simp only [Bool.not_true, Bool.false_eq_true, if_false]
    rw [if_neg (fun h => hne (List.isEmpty_iff.mp h))]

/-- Witness for C6: a fresh valid cache is served unchanged; an invalid
cached entry forces the refresh path inside the window; a call at exactly
24 hours refreshes; a successful refresh on the empty feed installs the
(nonempty) normalized catalog and timestamp. -/
theorem cache_freshness_witness :
    GET ⟨some fallbackModels, 0⟩ 1 FetchResult.threw =
      (fallbackModels, ⟨some fallbackModels, 0⟩) ∧
    GET ⟨some [⟨"bad", JNum.finite 0, JNum.finite 0⟩], 0⟩ 1 FetchResult.threw =
      refreshResult ⟨some [⟨"bad", JNum.finite 0, JNum.finite 0⟩], 0⟩ 1
        FetchResult.threw ∧
    GET ⟨some fallbackModels, 0⟩ oneDay FetchResult.threw =
      refreshResult ⟨some fallbackModels, 0⟩ oneDay FetchResult.threw ∧
    refreshResult ⟨none, 0⟩ 5 (FetchResult.responded ⟨true, true, some []⟩) =
      (refreshCatalog [], ⟨some (refreshCatalog []), 5⟩) := by
  refine ⟨?_, ?_, ?_, ?_⟩
  · exact cache_freshness.1 ⟨some fallbackModels, 0⟩ 1 FetchResult.threw
      fallbackModels rfl (by norm_num [oneDay]) (by decide)
  · exact cache_freshness.2.1 ⟨some [⟨"bad", JNum.finite 0, JNum.finite 0⟩], 0⟩
      1 FetchResult.threw [⟨"bad", JNum.finite 0, JNum.finite 0⟩] rfl
      (by norm_num [oneDay]) (by decide)
  · exact cache_freshness.2.2.1 ⟨some fallbackModels, 0⟩ oneDay
      FetchResult.threw (by norm_num [oneDay])
  · exact cache_freshness.2.2.2 ⟨none, 0⟩ 5 [] (by decide)

/-- C5 counterexample: on a non-success HTTP status the handler returns the
fallback table but does not populate the cache and does not update the
timestamp, contrary to the claim that every failure updates both. -/
theorem refresh_failure_counterexample :
    GET ⟨none, 0⟩ 1000000000 (FetchResult.responded ⟨false, true, none⟩) =
      (fallbackModels, ⟨none, 0⟩) ∧
    (⟨none, 0⟩ : CacheState).cachedModels ≠ some fallbackModels ∧
    (⟨none, 0⟩ : CacheState).lastFetched ≠ 1000000000 := by
  refine ⟨rfl, by simp, by decide⟩

/-- C5 amended: only a thrown error (network failure or timeout) makes the
handler cache the fallback table and update the timestamp; a non-success
status, a non-JSON content type, or a malformed envelope return the
(nonempty) fallback table with the cache state unchanged, so those failure
kinds are not rate-limited by the staleness window. -/
theorem refresh_failure_behavior :
    (∀ (st : CacheState) (now : ℤ),
      refreshResult st now FetchResult.threw =
        (fallbackModels, ⟨some fallbackModels, now⟩)) ∧
    (∀ (st : CacheState) (now : ℤ) (r : FetchResponse), r.ok = false →
      refreshResult st now (FetchResult.responded r) = (fallbackModels, st)) ∧
    (∀ (st : CacheState) (now : ℤ) (r : FetchResponse), r.ok = true →
      r.contentTypeJson = false →
      refreshResult st now (FetchResult.responded r) = (fallbackModels, st)) ∧
    (∀ (st : CacheState) (now : ℤ) (r : FetchResponse), r.ok = true →
      r.contentTypeJson = true → r.envelope = none →
      refreshResult st now (FetchResult.responded r) = (fallbackModels, st)) ∧
    fallbackModels ≠ [] := by
  refine ⟨fun st now => rfl, ?_, ?_, ?_, by simp [fallbackModels]⟩
  · intro st now r hok
    unfold refreshResult
    simp only []
    rw [hok]
    rfl
  · intro st now r hok hct
    unfold refreshResult
    simp only []
    rw [hok, hct]
    rfl
  · intro st now r hok hct henv
    unfold refreshResult
    simp only []
    rw [hok, hct, henv]
    rfl

/-- Witness for the amended C5 at concrete responses of each failure kind. -/
theorem refresh_failure_behavior_witness :
    refreshResult ⟨none, 0⟩ 7 FetchResult.threw =
      (fallbackModels, ⟨some fallbackModels, 7⟩) ∧
    refreshResult ⟨none, 0⟩ 7 (FetchResult.responded ⟨false, true, none⟩) =
      (fallbackModels, ⟨none, 0⟩) ∧
    refreshResult ⟨none, 0⟩ 7 (FetchResult.responded ⟨true, false, none⟩) =
      (fallbackModels, ⟨none, 0⟩) ∧
    refreshResult ⟨none, 0⟩ 7 (FetchResult.responded ⟨true, true, none⟩) =
      (fallbackModels, ⟨none, 0⟩) ∧
    fallbackModels ≠ [] :=
  ⟨refresh_failure_behavior.1 ⟨none, 0⟩ 7,
    refresh_failure_behavior.2.1 ⟨none, 0⟩ 7 ⟨false, true, none⟩ rfl,
    refresh_failure_behavior.2.2.1 ⟨none, 0⟩ 7 ⟨true, false, none⟩ rfl rfl,
    refresh_failure_behavior.2.2.2.1 ⟨none, 0⟩ 7 ⟨true, true, none⟩ rfl rfl rfl,
    refresh_failure_behavior.2.2.2.2⟩

/-- C8: every entry of every catalog the GET handler returns, on every
path (cache hit, fresh refresh, fallback), has a finite and strictly
positive parameter count. -/
theorem catalog_entries_valid (st : CacheState) (now : ℤ) (fr : FetchResult)
    (m : ModelData) (hm : m ∈ (GET st now fr).1) : validB m = true := by
  unfold GET at hm
  cases hc : st.cachedModels with
  | none => rw [hc] at hm; exact refreshResult_valid hm
  | some c =>
    rw [hc] at hm
    simp only [] at hm
    by_cases hcond : now - st.lastFetched < oneDay ∧
        (c.filter validB).length = c.length
    · rw [if_pos hcond] at hm
      exact (filter_length_eq_iff.mp hcond.2) m hm
    · rw [if_neg hcond] at hm
      exact refreshResult_valid hm

/-- Witness for C8: the first fallback entry served on a failed refresh is
valid. -/
theorem catalog_entries_valid_witness :
    (⟨"GPT-4 Turbo", JNum.finite 175, JNum.finite (1329/1000000000)⟩ : ModelData)
        ∈ (GET ⟨none, 0⟩ 0 FetchResult.threw).1 ∧
    validB ⟨"GPT-4 Turbo", JNum.finite 175, JNum.finite (1329/1000000000)⟩
        = true := by
  have hmem : (⟨"GPT-4 Turbo", JNum.finite 175,
      JNum.finite (1329/1000000000)⟩ : ModelData)
      ∈ (GET ⟨none, 0⟩ 0 FetchResult.threw).1 :=
    List.mem_cons_self _ _
  exact ⟨hmem, catalog_entries_valid ⟨none, 0⟩ 0 FetchResult.threw _ hmem⟩

/-- C10: every entry constructed during a refresh, whether extracted from
an upstream name or injected from the essentials list, has
emissions_per_token_kWh equal to parameters_in_billions times 7.594e-9
exactly. -/
theorem emissions_derived_from_params (feed : List RawModel) (m : ModelData)
    (hm : m ∈ injectEssentials (processFeed feed)) :
    ∃ p : ℚ, m.parameters_in_billions = JNum.finite p ∧
      m.emissions_per_token_kWh = JNum.finite (p * energyConsumptionFactor) := by
  rcases injectEssentials_mem hm with hin | heq | heq
  · rcases processFeed_mem hin with ⟨raw, _, hp⟩
    rcases processEntry_some hp with ⟨p, _, _, _, hpar, hemi⟩
    exact ⟨p, hpar, hemi⟩
  · exact ⟨675, by rw [heq]; rfl, by rw [heq]; rfl⟩
  · exact ⟨1000, by rw [heq]; rfl, by rw [heq]; rfl⟩

/-- Witness for C10: the injected DeepSeek essential entry on the empty
feed satisfies the derivation formula. -/
theorem emissions_derived_from_params_witness :
    dsEssential ∈ injectEssentials (processFeed []) ∧
    ∃ p : ℚ, dsEssential.parameters_in_billions = JNum.finite p ∧
      dsEssential.emissions_per_token_kWh =
        JNum.finite (p * energyConsumptionFactor) := by
  have hmem : dsEssential ∈ injectEssentials (processFeed []) :=
    List.mem_cons_self _ _
  exact ⟨hmem, emissions_derived_from_params [] dsEssential hmem⟩

/-! ## Claim theorems for name extraction -/

/-- C4 counterexample: the name with a space between the numeral and the
unit letter has no match under the claim reading (numeral immediately
followed by the unit letter), yet the route extracts the candidate 7 and
includes the entry, because the regex permits optional whitespace between
the numeral and the unit. -/
theorem extraction_immediate_counterexample :
    allImmMatches "Llama 7 B" = [] ∧
    extractCandidate "Llama 7 B" = some 7 ∧
    processEntry ⟨some "Llama 7 B"⟩ ≠ none := by
  have hstr : strNats "Llama 7 B" = [76, 108, 97, 109, 97, 32, 55, 32, 66] := by
    decide
  have hext : extractCandidate "Llama 7 B" = some 7 := by
    unfold extractCandidate scanVals
    rw [hstr]
    norm_num [scanAux, tryMatch, fracSplit, numValue, digitsVal, unitMul,
      unitOf, noWordHead, isDigitN, isSpaceN, isWordN, listMax]
  refine ⟨by decide, hext, ?_⟩
  unfold processEntry
  have hbl : blacklistedName "Llama 7 B" = false := by decide
  have hft : freeTierName "Llama 7 B" = false := by decide
  rw [show (RawModel.mk (some "Llama 7 B")).name.getD "" = "Llama 7 B" from rfl,
    hbl, hft]
  simp only [Bool.false_eq_true, if_false]
  rw [hext]
  simp

/-- C4 amended: matches allow optional whitespace between the numeral and
the unit letter, and are taken non-overlapping from left to right as
matchAll does.  A candidate is extracted exactly when some position-wise
match exists; the extracted value is the maximum of the non-overlapping
matches, each of which is a position-wise match; zero matches exclude the
entry.  With overlapping numerals the non-overlapping maximum can be
smaller than the all-positions maximum, as the closing 1.5B example
shows. -/
theorem extraction_amended (s : String) (raw : RawModel) :
    (extractCandidate s = none ↔ allWsMatches s = []) ∧
    (∀ v : ℚ, extractCandidate s = some v → v = listMax (scanVals s) ∧
      scanVals s ≠ [] ∧ ∀ w ∈ scanVals s, w ∈ allWsMatches s) ∧
    (extractCandidate (raw.name.getD "") = none → processEntry raw = none) ∧
    (extractCandidate "1.5B" = some (3/2) ∧ (5 : ℚ) ∈ allWsMatches "1.5B") := by
  refine ⟨?_, ?_, ?_, ?_, ?_⟩
  · constructor
    · intro hnone
      cases hsv : scanVals s with
      | nil => exact scan_empty_spec hsv
      | cons v vs =>
        unfold extractCandidate at hnone
        rw [hsv] at hnone
        simp at hnone
    · intro hspec
      unfold extractCandidate
      rw [show scanVals s = [] from specAux_empty_scan hspec 0]
  · intro v hv
    cases hsv : scanVals s with
    | nil =>
      unfold extractCandidate at hv
      rw [hsv] at hv
      simp at hv
    | cons v0 vs =>
      unfold extractCandidate at hv
      rw [hsv] at hv
      simp only [Option.some.injEq] at hv
      refine ⟨hv.symm, by simp, ?_⟩
      intro w hw
      rw [← hsv] at hw
      unfold scanVals at hw
      unfold allWsMatches
      exact scan_subset_spec hw
  · intro he
    unfold processEntry
    by_cases hb : blacklistedName (raw.name.getD "")
    · rw [if_pos hb]
    · rw [if_neg hb]
      by_cases hf : freeTierName (raw.name.getD "")
      · rw [if_pos hf]
      · rw [if_neg hf, he]
  · have hstr : strNats "1.5B" = [49, 46, 53, 66] := by decide
    unfold extractCandidate scanVals
    rw [hstr]
    norm_num [scanAux, tryMatch, fracSplit, numValue, digitsVal, unitMul,
      unitOf, noWordHead, isDigitN, isSpaceN, isWordN, listMax]
  · have hstr : strNats "1.5B" = [49, 46, 53, 66] := by decide
    unfold allWsMatches
    rw [hstr]
    norm_num [specAux, tryMatch, fracSplit, numValue, digitsVal, unitMul,
      unitOf, noWordHead, isDigitN, isSpaceN, isWordN]

/-- Witness for the amended C4: the plain name Llama 7B extracts 7, the
maximum of its single match, and the matchless name Mixtral is excluded. -/
theorem extraction_amended_witness :
    extractCandidate "Llama 7B" = some 7 ∧
    (7 : ℚ) = listMax (scanVals "Llama 7B") ∧
    scanVals "Llama 7B" ≠ [] ∧
    (∀ w ∈ scanVals "Llama 7B", w ∈ allWsMatches "Llama 7B") ∧
    processEntry ⟨some "Mixtral"⟩ = none := by
  have hstr : strNats "Llama 7B" = [76, 108, 97, 109, 97, 32, 55, 66] := by
    decide
  have hext : extractCandidate "Llama 7B" = some 7 := by
    unfold extractCandidate scanVals
    rw [hstr]
    norm_num [scanAux, tryMatch, fracSplit, numValue, digitsVal, unitMul,
      unitOf, noWordHead, isDigitN, isSpaceN, isWordN, listMax]
  have hmix : extractCandidate ((RawModel.mk (some "Mixtral")).name.getD "")
      = none := by
    have hsv : scanVals "Mixtral" = [] := by decide
    unfold extractCandidate
    rw [show (RawModel.mk (some "Mixtral")).name.getD "" = "Mixtral" from rfl,
      hsv]
  have h := extraction_amended "Llama 7B" ⟨some "Mixtral"⟩
  have h2 := h.2.1 7 hext
  exact ⟨hext, h2.1, h2.2.1, h2.2.2, h.2.2.1 hmix⟩

/-! ## Claim theorems for deduplication and essentials -/

/-- A feed listing the same name twice, as a duplicate-suppression probe. -/
def dupFeed : List RawModel := [⟨some "Llama 7B"⟩, ⟨some "Llama 7B"⟩]

/-- The catalog entry the route builds for the name Llama 7B. -/
def llama7B : ModelData :=
  { name := "Llama 7B"
    parameters_in_billions := JNum.finite 7
    emissions_per_token_kWh := JNum.finite (7 * energyConsumptionFactor) }

/-- No two entries of the list have case-insensitively equal names. -/
def namesCIDistinct (l : List ModelData) : Prop :=
  l.Pairwise (fun a b => nameKey a.name ≠ nameKey b.name)

theorem extract_llama7B : extractCandidate "Llama 7B" = some 7 := by
  have hstr : strNats "Llama 7B" = [76, 108, 97, 109, 97, 32, 55, 66] := by
    decide
  unfold extractCandidate scanVals
  rw [hstr]
  norm_num [scanAux, tryMatch, fracSplit, numValue, digitsVal, unitMul,
    unitOf, noWordHead, isDigitN, isSpaceN, isWordN, listMax]

theorem processEntry_llama7B : processEntry ⟨some "Llama 7B"⟩ = some llama7B := by
  have hbl : blacklistedName "Llama 7B" = false := by decide
  have hft : freeTierName "Llama 7B" = false := by decide
  unfold processEntry
  rw [show (RawModel.mk (some "Llama 7B")).name.getD "" = "Llama 7B" from rfl,
    hbl, hft]
  simp only [Bool.false_eq_true, if_false]
  rw [extract_llama7B]
  simp only []
  rw [if_pos (by norm_num : (0 : ℚ) < 7)]
  rfl

theorem dupFeed_catalog_perm :
    List.Perm (refreshCatalog dupFeed)
      [llama7B, llama7B, dsEssential, kimiEssential] := by
  have hfeed : processFeed dupFeed = [llama7B, llama7B] := by
    unfold processFeed dupFeed
    simp [List.filterMap_cons, processEntry_llama7B]
  have hinj : injectEssentials [llama7B, llama7B] =
      [llama7B, llama7B, dsEssential, kimiEssential] := by
    rw [injectEssentials_eq (by intro m hm; fin_cases hm <;> decide)
      (by intro m hm; fin_cases hm <;> decide)]
    rfl
  have hfil : List.filter validB [llama7B, llama7B, dsEssential, kimiEssential]
      = [llama7B, llama7B, dsEssential, kimiEssential] :=
    List.filter_eq_self.mpr (by intro a ha; fin_cases ha <;> decide)
  unfold refreshCatalog
  rw [hfeed, hinj, hfil]
  exact sortByParamsDesc_perm _

theorem dupFeed_count : cntName "Llama 7B" (refreshCatalog dupFeed) = 2 := by
  unfold cntName
  rw [dupFeed_catalog_perm.countP_eq]
  decide

/-- C7 counterexample: the raw feed that lists Llama 7B twice yields a
refreshed catalog with two case-insensitively equal names: the route has
no deduplication step for feed-derived entries. -/
theorem catalog_duplicate_names :
    ¬ namesCIDistinct (refreshCatalog dupFeed) ∧
      cntName "Llama 7B" (refreshCatalog dupFeed) = 2 := by
  refine ⟨?_, dupFeed_count⟩
  unfold namesCIDistinct
  rw [List.Perm.pairwise_iff (fun h => Ne.symm h) dupFeed_catalog_perm]
  decide

/-- C7 amended: duplicates from the raw feed are not suppressed (a name
listed twice appears twice), but each essential model appears exactly once
in every successfully refreshed catalog, whether or not the raw feed
listed it: a feed name that equals an essential name up to case can never
pass extraction, because the essential names contain no parameter token
and extraction is case-invariant. -/
theorem catalog_essentials_once (feed : List RawModel) :
    cntName "DeepSeek V3 0324" (refreshCatalog feed) = 1 ∧
    cntName "Kimi K2" (refreshCatalog feed) = 1 ∧
    cntName "Llama 7B" (refreshCatalog dupFeed) = 2 :=
  ⟨(refreshCatalog_essential_once feed).1,
    (refreshCatalog_essential_once feed).2, dupFeed_count⟩
